import Mathlib

/-!
Shallow embedding of the solana-counter program (src/lib.rs).

Bytes are modelled as natural numbers (a well-formed byte is `< 256`);
u32 values are natural numbers taken modulo `2 ^ 32` wherever the Rust
u32 arithmetic wraps.  Borsh deserialization is modelled as a reader on
`List Nat`: `try_from_slice` runs the reader and additionally requires
that the whole input is consumed, exactly as `BorshDeserialize::try_from_slice`
does.  The handler threads the account list explicitly: it returns both
the `ProgramResult` and the final account list, so that mutation (and
absence of mutation on error paths) is observable.
-/

/-- Little-endian interpretation of four bytes as an unsigned 32-bit value. -/
def leToU32 (b0 b1 b2 b3 : Nat) : Nat :=
  b0 + 2 ^ 8 * b1 + 2 ^ 16 * b2 + 2 ^ 24 * b3

/-- Little-endian serialization of a u32 (`u32::to_le_bytes`). -/
def u32ToLE (n : Nat) : List Nat :=
  [n % 2 ^ 8, n / 2 ^ 8 % 2 ^ 8, n / 2 ^ 16 % 2 ^ 8, n / 2 ^ 24 % 2 ^ 8]

/-- Wrapping unsigned 32-bit addition (Rust `u32` `+=` in release builds). -/
def wrappingAdd32 (a b : Nat) : Nat := (a + b) % 2 ^ 32

/-- Wrapping unsigned 32-bit subtraction (Rust `u32` `-=` in release builds). -/
def wrappingSub32 (a b : Nat) : Nat := (a + (2 ^ 32 - b % 2 ^ 32)) % 2 ^ 32

/-- The error kinds the handler can report, named as in the specification.
In the source each decode failure surfaces through `?` at a distinct program
point: `next_account_info` (MissingAccount), `Instructions::try_from_slice`
(MalformedInstruction), `Counter::try_from_slice` (MalformedState), and
`serialize` into the account slot (SerializationFailed). -/
inductive ProgramError where
  | missingAccount : ProgramError
  | malformedInstruction : ProgramError
  | malformedState : ProgramError
  | serializationFailed : ProgramError
deriving DecidableEq, Repr

/-- Read one byte (borsh `u8` deserialization). -/
def readU8 : List Nat → Option (Nat × List Nat)
  | b :: rest => some (b, rest)
  | [] => none

/-- Read a little-endian u32 (borsh `u32` deserialization). -/
def readU32 : List Nat → Option (Nat × List Nat)
  | b0 :: b1 :: b2 :: b3 :: rest => some (leToU32 b0 b1 b2 b3, rest)
  | _ => none

/-- The instruction enum from src/lib.rs. -/
inductive Instructions where
  | Increment : Nat → Instructions
  | Decrement : Nat → Instructions
deriving DecidableEq, Repr

/-- Borsh reader for `Instructions`: a `u8` discriminant (0 = Increment,
1 = Decrement) followed by a `u32` payload. -/
def Instructions.deserializeReader (bs : List Nat) : Option (Instructions × List Nat) :=
  match readU8 bs with
  | none => none
  | some (tag, r1) =>
    match tag with
    | 0 =>
      match readU32 r1 with
      | some (v, r2) => some (Instructions.Increment v, r2)
      | none => none
    | 1 =>
      match readU32 r1 with
      | some (v, r2) => some (Instructions.Decrement v, r2)
      | none => none
    | _ => none

/-- `Instructions::try_from_slice`: run the reader and require that the
whole buffer is consumed; any failure is a MalformedInstruction error. -/
def Instructions.try_from_slice (bs : List Nat) : Except ProgramError Instructions :=
  match Instructions.deserializeReader bs with
  | some (i, []) => Except.ok i
  | _ => Except.error ProgramError.malformedInstruction

/-- Borsh serialization of `Instructions`: discriminant byte then LE u32. -/
def Instructions.serializeBytes : Instructions → List Nat
  | Instructions.Increment v => 0 :: u32ToLE v
  | Instructions.Decrement v => 1 :: u32ToLE v

/-- The persisted state struct from src/lib.rs. -/
structure Counter where
  count : Nat
deriving DecidableEq, Repr

/-- Borsh reader for `Counter`: a single `u32` field. -/
def Counter.deserializeReader (bs : List Nat) : Option (Counter × List Nat) :=
  match readU32 bs with
  | some (c, r) => some ({ count := c }, r)
  | none => none

/-- `Counter::try_from_slice`: run the reader and require that the whole
buffer is consumed; any failure is a MalformedState error. -/
def Counter.try_from_slice (bs : List Nat) : Except ProgramError Counter :=
  match Counter.deserializeReader bs with
  | some (c, []) => Except.ok c
  | _ => Except.error ProgramError.malformedState

/-- Borsh serialization of `Counter`: the count as a LE u32. -/
def Counter.serializeBytes (c : Counter) : List Nat := u32ToLE c.count

/-- Writing serialized bytes into a mutable slice (`&mut *acc.data.borrow_mut()`
used as an `io::Write`): copies as many bytes as fit at the start of the
buffer (the slice length never changes) and fails if the buffer is too short.
The possibly partially written buffer is returned together with the result. -/
def writeAllBytes (bytes buf : List Nat) : List Nat × Except ProgramError Unit :=
  (bytes.take buf.length ++ buf.drop bytes.length,
   if bytes.length ≤ buf.length then Except.ok ()
   else Except.error ProgramError.serializationFailed)

/-- An account handle, reduced to the one field the program touches:
its mutable data buffer. -/
structure AccountInfo where
  data : List Nat
deriving DecidableEq, Repr

/-- The program entrypoint `process_instructions`.  Mirrors src/lib.rs:
take the first account (`next_account_info`), decode the instruction,
decode the account data as `Counter`, apply the (wrapping) mutation,
serialize back into the account's data slot.  Returns the
`ProgramResult` together with the final state of the account list. -/
def process_instructions (_programId : Nat) (accounts : List AccountInfo)
    (instruction_data : List Nat) : Except ProgramError Unit × List AccountInfo :=
  match accounts with
  | [] => (Except.error ProgramError.missingAccount, [])
  | acc :: rest =>
    match Instructions.try_from_slice instruction_data with
    | Except.error e => (Except.error e, acc :: rest)
    | Except.ok instruction =>
      match Counter.try_from_slice acc.data with
      | Except.error e => (Except.error e, acc :: rest)
      | Except.ok counter_data =>
        let newCount : Nat :=
          match instruction with
          | Instructions.Increment value => wrappingAdd32 counter_data.count value
          | Instructions.Decrement value => wrappingSub32 counter_data.count value
        match writeAllBytes (Counter.serializeBytes { count := newCount }) acc.data with
        | (buf, Except.error e) => (Except.error e, { data := buf } :: rest)
        | (buf, Except.ok _) => (Except.ok (), { data := buf } :: rest)

/-! ### Decoder characterization lemmas -/

theorem Counter.try_from_slice_four (b0 b1 b2 b3 : Nat) :
    Counter.try_from_slice [b0, b1, b2, b3] =
      Except.ok { count := leToU32 b0 b1 b2 b3 } := rfl

theorem Counter.decode_ok_shape (d : List Nat) (c : Counter)
    (h : Counter.try_from_slice d = Except.ok c) :
    ∃ b0 b1 b2 b3, d = [b0, b1, b2, b3] ∧ c = { count := leToU32 b0 b1 b2 b3 } := by
  rcases d with _ | ⟨b0, _ | ⟨b1, _ | ⟨b2, _ | ⟨b3, _ | ⟨b4, t⟩⟩⟩⟩⟩ <;>
    simp [Counter.try_from_slice, Counter.deserializeReader, readU32] at h
  exact ⟨b0, b1, b2, b3, rfl, h.symm⟩

theorem Counter.try_from_slice_len_ne (d : List Nat) (h : d.length ≠ 4) :
    Counter.try_from_slice d = Except.error ProgramError.malformedState := by
  rcases d with _ | ⟨b0, _ | ⟨b1, _ | ⟨b2, _ | ⟨b3, _ | ⟨b4, t⟩⟩⟩⟩⟩ <;>
    simp [Counter.try_from_slice, Counter.deserializeReader, readU32] at h ⊢

theorem Instructions.try_from_slice_inc (b1 b2 b3 b4 : Nat) :
    Instructions.try_from_slice [0, b1, b2, b3, b4] =
      Except.ok (Instructions.Increment (leToU32 b1 b2 b3 b4)) := rfl

theorem Instructions.try_from_slice_dec (b1 b2 b3 b4 : Nat) :
    Instructions.try_from_slice [1, b1, b2, b3, b4] =
      Except.ok (Instructions.Decrement (leToU32 b1 b2 b3 b4)) := rfl

theorem Instructions.decode_ok_bounds (bs : List Nat) (i : Instructions)
    (h : Instructions.try_from_slice bs = Except.ok i) :
    bs.length = 5 ∧ (bs.head? = some 0 ∨ bs.head? = some 1) := by
  rcases bs with _ | ⟨b0, t⟩
  · simp [Instructions.try_from_slice, Instructions.deserializeReader, readU8] at h
  · rcases t with _ | ⟨c0, _ | ⟨c1, _ | ⟨c2, _ | ⟨c3, _ | ⟨c4, r⟩⟩⟩⟩⟩ <;>
      rcases b0 with _ | _ | b0 <;>
      simp [Instructions.try_from_slice, Instructions.deserializeReader,
        readU8, readU32] at h ⊢

theorem Instructions.try_from_slice_err_val (bs : List Nat) (e : ProgramError)
    (h : Instructions.try_from_slice bs = Except.error e) :
    e = ProgramError.malformedInstruction := by
  unfold Instructions.try_from_slice at h
  rcases hd : Instructions.deserializeReader bs with _ | ⟨i, _ | ⟨x, r⟩⟩ <;>
    rw [hd] at h <;> simp at h <;> exact h.symm

theorem Instructions.try_from_slice_fail (bs : List Nat)
    (h : ¬ (bs.length = 5 ∧ (bs.head? = some 0 ∨ bs.head? = some 1))) :
    Instructions.try_from_slice bs = Except.error ProgramError.malformedInstruction := by
  cases hr : Instructions.try_from_slice bs with
  | ok i => exact absurd (Instructions.decode_ok_bounds bs i hr) h
  | error e => rw [Instructions.try_from_slice_err_val bs e hr]

theorem writeAllBytes_exact (bytes buf : List Nat) (h : bytes.length = buf.length) :
    writeAllBytes bytes buf = (bytes, Except.ok ()) := by
  have h1 : bytes.take buf.length = bytes := by rw [← h]; simp
  have h2 : List.drop bytes.length buf = [] := by rw [h]; simp
  simp [writeAllBytes, h1, h2, h.le]

/-! ### Claim theorems -/

/-- C1: invoking the handler with a validly encoded Increment(v) instruction on
an account whose data decodes to CounterState with count c succeeds and leaves
the account data encoding count (c + v) % 2 ^ 32 — direct unsigned 32-bit
addition with no overflow guard. -/
theorem C1_increment (pid : Nat) (ins d : List Nat) (rest : List AccountInfo) (c v : Nat)
    (hins : Instructions.try_from_slice ins = Except.ok (Instructions.Increment v))
    (hd : Counter.try_from_slice d = Except.ok { count := c }) :
    process_instructions pid ({ data := d } :: rest) ins =
      (Except.ok (),
        { data := Counter.serializeBytes { count := (c + v) % 2 ^ 32 } } :: rest) := by
  obtain ⟨b0, b1, b2, b3, hdEq, _⟩ := Counter.decode_ok_shape d _ hd
  subst hdEq
  simp only [process_instructions, hins, hd]
  rfl

/-- C1 witness: count 10, instruction bytes [0, 5, 0, 0, 0] (Increment 5)
yields stored count 15. -/
theorem C1_increment_witness :
    process_instructions 0 [{ data := [10, 0, 0, 0] }] [0, 5, 0, 0, 0] =
      (Except.ok (), [{ data := Counter.serializeBytes { count := (10 + 5) % 2 ^ 32 } }]) :=
  C1_increment 0 [0, 5, 0, 0, 0] [10, 0, 0, 0] [] 10 5 rfl rfl

/-- C2: invoking the handler with a validly encoded Decrement(v) instruction on
an account whose data decodes to CounterState with count c succeeds and leaves
the account data encoding the native wrapping unsigned 32-bit difference; in
particular the difference at count 0, amount 1 is 2 ^ 32 - 1 (wrap, not a
corrected or rejected value). -/
theorem C2_decrement (pid : Nat) (ins d : List Nat) (rest : List AccountInfo) (c v : Nat)
    (hins : Instructions.try_from_slice ins = Except.ok (Instructions.Decrement v))
    (hd : Counter.try_from_slice d = Except.ok { count := c }) :
    process_instructions pid ({ data := d } :: rest) ins =
      (Except.ok (),
        { data := Counter.serializeBytes { count := wrappingSub32 c v } } :: rest) ∧
    wrappingSub32 0 1 = 2 ^ 32 - 1 := by
  obtain ⟨b0, b1, b2, b3, hdEq, _⟩ := Counter.decode_ok_shape d _ hd
  subst hdEq
  constructor
  · simp only [process_instructions, hins, hd]
    rfl
  · rfl

/-- C2 witness: count 0, instruction bytes [1, 1, 0, 0, 0] (Decrement 1)
wraps to 2 ^ 32 - 1. -/
theorem C2_decrement_witness :
    (process_instructions 0 [{ data := [0, 0, 0, 0] }] [1, 1, 0, 0, 0] =
      (Except.ok (), [{ data := Counter.serializeBytes { count := wrappingSub32 0 1 } }]) ∧
    wrappingSub32 0 1 = 2 ^ 32 - 1) :=
  C2_decrement 0 [1, 1, 0, 0, 0] [0, 0, 0, 0] [] 0 1 rfl rfl

/-- C3: instruction decoding succeeds exactly on 5-byte buffers whose first
byte is 0 (Increment) or 1 (Decrement), with bytes 1-4 read as a
little-endian u32 amount; every other buffer fails with MalformedInstruction. -/
theorem C3_instruction_decoding :
    (∀ b1 b2 b3 b4 : Nat,
      Instructions.try_from_slice [0, b1, b2, b3, b4] =
        Except.ok (Instructions.Increment (leToU32 b1 b2 b3 b4)) ∧
      Instructions.try_from_slice [1, b1, b2, b3, b4] =
        Except.ok (Instructions.Decrement (leToU32 b1 b2 b3 b4))) ∧
    (∀ bs : List Nat, ¬ (bs.length = 5 ∧ (bs.head? = some 0 ∨ bs.head? = some 1)) →
      Instructions.try_from_slice bs = Except.error ProgramError.malformedInstruction) :=
  ⟨fun _ _ _ _ => ⟨rfl, rfl⟩, Instructions.try_from_slice_fail⟩

/-- C3 witness: a 4-byte buffer and a discriminant 7 both fail with
MalformedInstruction. -/
theorem C3_instruction_decoding_witness :
    Instructions.try_from_slice [0, 5, 0, 0] =
      Except.error ProgramError.malformedInstruction ∧
    Instructions.try_from_slice [7, 0, 0, 0, 0] =
      Except.error ProgramError.malformedInstruction :=
  ⟨C3_instruction_decoding.2 [0, 5, 0, 0] (by decide),
   C3_instruction_decoding.2 [7, 0, 0, 0, 0] (by decide)⟩

/-- C4: state decoding succeeds exactly on 4-byte buffers, read as a
little-endian u32 count; any other length fails with MalformedState, and an
invocation with a valid instruction and first-account data of length other
than 4 fails with MalformedState, leaving the accounts unchanged. -/
theorem C4_state_decoding :
    (∀ b0 b1 b2 b3 : Nat,
      Counter.try_from_slice [b0, b1, b2, b3] =
        Except.ok { count := leToU32 b0 b1 b2 b3 }) ∧
    (∀ d : List Nat, d.length ≠ 4 →
      Counter.try_from_slice d = Except.error ProgramError.malformedState) ∧
    (∀ pid : Nat, ∀ ins d : List Nat, ∀ rest : List AccountInfo, ∀ i : Instructions,
      Instructions.try_from_slice ins = Except.ok i → d.length ≠ 4 →
      process_instructions pid ({ data := d } :: rest) ins =
        (Except.error ProgramError.malformedState, { data := d } :: rest)) := by
  refine ⟨Counter.try_from_slice_four, Counter.try_from_slice_len_ne, ?_⟩
  intro pid ins d rest i hins hlen
  simp only [process_instructions, hins, Counter.try_from_slice_len_ne d hlen]

/-- C4 witness: 3-byte state data fails with MalformedState, both for the
decoder alone and for a full invocation with a valid instruction. -/
theorem C4_state_decoding_witness :
    process_instructions 0 [{ data := [1, 2, 3] }] [0, 0, 0, 0, 0] =
      (Except.error ProgramError.malformedState, [{ data := [1, 2, 3] }]) ∧
    Counter.try_from_slice [9, 9, 9] = Except.error ProgramError.malformedState :=
  ⟨C4_state_decoding.2.2 0 [0, 0, 0, 0, 0] [1, 2, 3] [] (Instructions.Increment 0)
      rfl (by decide),
   C4_state_decoding.2.1 [9, 9, 9] (by decide)⟩

/-- C5: invoking the handler with an empty account list fails with
MissingAccount and mutates nothing (the account list is returned unchanged). -/
theorem C5_empty_accounts (pid : Nat) (ins : List Nat) :
    process_instructions pid [] ins =
      (Except.error ProgramError.missingAccount, []) := rfl

/-- C6: encode-then-decode is the identity on both record types: any 32-bit
count round-trips through the Counter encoding, and any variant with a 32-bit
amount round-trips through the Instructions encoding. -/
theorem C6_roundtrip :
    (∀ c : Nat, c < 2 ^ 32 →
      Counter.try_from_slice (Counter.serializeBytes { count := c }) =
        Except.ok { count := c }) ∧
    (∀ v : Nat, v < 2 ^ 32 →
      Instructions.try_from_slice (Instructions.serializeBytes (Instructions.Increment v)) =
        Except.ok (Instructions.Increment v) ∧
      Instructions.try_from_slice (Instructions.serializeBytes (Instructions.Decrement v)) =
        Except.ok (Instructions.Decrement v)) := by
  have key : ∀ n : Nat, n < 2 ^ 32 →
      leToU32 (n % 2 ^ 8) (n / 2 ^ 8 % 2 ^ 8) (n / 2 ^ 16 % 2 ^ 8) (n / 2 ^ 24 % 2 ^ 8) = n := by
    intro n h
    unfold leToU32
    norm_num
    omega
  refine ⟨fun c h => ?_, fun v h => ⟨?_, ?_⟩⟩
  · show Counter.try_from_slice
      [c % 2 ^ 8, c / 2 ^ 8 % 2 ^ 8, c / 2 ^ 16 % 2 ^ 8, c / 2 ^ 24 % 2 ^ 8] = _
    rw [Counter.try_from_slice_four, key c h]
  · show Instructions.try_from_slice
      [0, v % 2 ^ 8, v / 2 ^ 8 % 2 ^ 8, v / 2 ^ 16 % 2 ^ 8, v / 2 ^ 24 % 2 ^ 8] = _
    rw [Instructions.try_from_slice_inc, key v h]
  · show Instructions.try_from_slice
      [1, v % 2 ^ 8, v / 2 ^ 8 % 2 ^ 8, v / 2 ^ 16 % 2 ^ 8, v / 2 ^ 24 % 2 ^ 8] = _
    rw [Instructions.try_from_slice_dec, key v h]

/-- C6 witness: count 5 and amount 7 round-trip. -/
theorem C6_roundtrip_witness :
    Counter.try_from_slice (Counter.serializeBytes { count := 5 }) =
      Except.ok { count := 5 } ∧
    Instructions.try_from_slice (Instructions.serializeBytes (Instructions.Increment 7)) =
      Except.ok (Instructions.Increment 7) :=
  ⟨C6_roundtrip.1 5 (by norm_num), (C6_roundtrip.2 7 (by norm_num)).1⟩

/-- C7: the handler checks in a fixed order — account availability, then
instruction decoding, then state decoding — so the reported error is the
first failing step: an empty account list yields MissingAccount for every
instruction buffer; a present account with a malformed instruction yields
MalformedInstruction regardless of the account data; a valid instruction
with undecodable account data yields MalformedState. -/
theorem C7_check_order :
    (∀ pid : Nat, ∀ ins : List Nat,
      process_instructions pid [] ins =
        (Except.error ProgramError.missingAccount, [])) ∧
    (∀ pid : Nat, ∀ acc : AccountInfo, ∀ rest : List AccountInfo, ∀ ins : List Nat,
      Instructions.try_from_slice ins = Except.error ProgramError.malformedInstruction →
      process_instructions pid (acc :: rest) ins =
        (Except.error ProgramError.malformedInstruction, acc :: rest)) ∧
    (∀ pid : Nat, ∀ acc : AccountInfo, ∀ rest : List AccountInfo, ∀ ins : List Nat,
      ∀ i : Instructions,
      Instructions.try_from_slice ins = Except.ok i →
      Counter.try_from_slice acc.data = Except.error ProgramError.malformedState →
      process_instructions pid (acc :: rest) ins =
        (Except.error ProgramError.malformedState, acc :: rest)) := by
  refine ⟨fun _ _ => rfl, fun pid acc rest ins hins => ?_,
    fun pid acc rest ins i hins hst => ?_⟩
  · simp only [process_instructions, hins]
  · simp only [process_instructions, hins, hst]

/-- C7 witness: empty account list with a malformed instruction gives
MissingAccount; a present account with the same malformed instruction and
undecodable data gives MalformedInstruction. -/
theorem C7_check_order_witness :
    process_instructions 0 [] [9] = (Except.error ProgramError.missingAccount, []) ∧
    process_instructions 0 [{ data := [] }] [9] =
      (Except.error ProgramError.malformedInstruction, [{ data := [] }]) ∧
    process_instructions 0 [{ data := [] }] [0, 2, 0, 0, 0] =
      (Except.error ProgramError.malformedState, [{ data := [] }]) :=
  ⟨C7_check_order.1 0 [9],
   C7_check_order.2.1 0 { data := [] } [] [9] rfl,
   C7_check_order.2.2 0 { data := [] } [] [0, 2, 0, 0, 0] (Instructions.Increment 2) rfl rfl⟩

/-- C8: on every successful invocation the only mutation is the in-place
overwrite of the first account's data with the 4-byte re-encoded
CounterState: the slot length is unchanged (4 bytes before and after) and
every other account is returned untouched. -/
theorem C8_success_frame (pid : Nat) (accounts out : List AccountInfo) (ins : List Nat)
    (h : process_instructions pid accounts ins = (Except.ok (), out)) :
    ∃ acc rest newCount, accounts = acc :: rest ∧
      out = { data := Counter.serializeBytes { count := newCount } } :: rest ∧
      (Counter.serializeBytes { count := newCount }).length = acc.data.length ∧
      acc.data.length = 4 := by
  rcases accounts with _ | ⟨acc, rest⟩
  · exact absurd h (by simp [process_instructions])
  rcases hins : Instructions.try_from_slice ins with e | i
  · rw [show process_instructions pid (acc :: rest) ins = (Except.error e, acc :: rest) by
      simp only [process_instructions, hins]] at h
    simp at h
  rcases hst : Counter.try_from_slice acc.data with e | c
  · rw [show process_instructions pid (acc :: rest) ins = (Except.error e, acc :: rest) by
      simp only [process_instructions, hins, hst]] at h
    simp at h
  obtain ⟨b0, b1, b2, b3, hdEq, hcEq⟩ := Counter.decode_ok_shape acc.data c hst
  rcases acc with ⟨d⟩
  simp only at hdEq
  subst hdEq
  rcases i with v | v
  · have hrun : process_instructions pid ({ data := [b0, b1, b2, b3] } :: rest) ins =
        (Except.ok (),
          { data := Counter.serializeBytes { count := wrappingAdd32 c.count v } } :: rest) := by
      simp only [process_instructions, hins, hst]
      rfl
    rw [hrun] at h
    simp only [Prod.mk.injEq, true_and] at h
    exact ⟨{ data := [b0, b1, b2, b3] }, rest, wrappingAdd32 c.count v, rfl, h.symm, rfl, rfl⟩
  · have hrun : process_instructions pid ({ data := [b0, b1, b2, b3] } :: rest) ins =
        (Except.ok (),
          { data := Counter.serializeBytes { count := wrappingSub32 c.count v } } :: rest) := by
      simp only [process_instructions, hins, hst]
      rfl
    rw [hrun] at h
    simp only [Prod.mk.injEq, true_and] at h
    exact ⟨{ data := [b0, b1, b2, b3] }, rest, wrappingSub32 c.count v, rfl, h.symm, rfl, rfl⟩

/-- C8 witness: a successful Increment leaves exactly the re-encoded
4-byte state in the first slot. -/
theorem C8_success_frame_witness :
    ∃ acc rest newCount,
      ([{ data := [10, 0, 0, 0] }] : List AccountInfo) = acc :: rest ∧
      [({ data := Counter.serializeBytes { count := (10 + 5) % 2 ^ 32 } } : AccountInfo)] =
        { data := Counter.serializeBytes { count := newCount } } :: rest ∧
      (Counter.serializeBytes { count := newCount }).length = acc.data.length ∧
      acc.data.length = 4 :=
  C8_success_frame 0 [{ data := [10, 0, 0, 0] }]
    [{ data := Counter.serializeBytes { count := (10 + 5) % 2 ^ 32 } }] [0, 5, 0, 0, 0] rfl

/-- C9: whenever the handler returns an error, every account's data is
byte-for-byte unchanged: the account list after a failed invocation equals
the account list before it. -/
theorem C9_error_no_mutation (pid : Nat) (accounts out : List AccountInfo)
    (ins : List Nat) (e : ProgramError)
    (h : process_instructions pid accounts ins = (Except.error e, out)) :
    out = accounts := by
  rcases accounts with _ | ⟨acc, rest⟩
  · have := congrArg Prod.snd h
    simpa [process_instructions] using this.symm
  rcases hins : Instructions.try_from_slice ins with e1 | i
  · rw [show process_instructions pid (acc :: rest) ins = (Except.error e1, acc :: rest) by
      simp only [process_instructions, hins]] at h
    simp only [Prod.mk.injEq] at h
    exact h.2.symm
  rcases hst : Counter.try_from_slice acc.data with e2 | c
  · rw [show process_instructions pid (acc :: rest) ins = (Except.error e2, acc :: rest) by
      simp only [process_instructions, hins, hst]] at h
    simp only [Prod.mk.injEq] at h
    exact h.2.symm
  obtain ⟨b0, b1, b2, b3, hdEq, hcEq⟩ := Counter.decode_ok_shape acc.data c hst
  rcases acc with ⟨d⟩
  simp only at hdEq
  subst hdEq
  rcases i with v | v
  · rw [show process_instructions pid ({ data := [b0, b1, b2, b3] } :: rest) ins =
        (Except.ok (),
          { data := Counter.serializeBytes { count := wrappingAdd32 c.count v } } :: rest) by
      simp only [process_instructions, hins, hst]; rfl] at h
    simp at h
  · rw [show process_instructions pid ({ data := [b0, b1, b2, b3] } :: rest) ins =
        (Except.ok (),
          { data := Counter.serializeBytes { count := wrappingSub32 c.count v } } :: rest) by
      simp only [process_instructions, hins, hst]; rfl] at h
    simp at h

/-- C9 witness: a failed invocation (malformed instruction) returns the
account list unchanged. -/
theorem C9_error_no_mutation_witness :
    ([{ data := [1, 0, 0, 0] }] : List AccountInfo) = [{ data := [1, 0, 0, 0] }] :=
  C9_error_no_mutation 0 [{ data := [1, 0, 0, 0] }] [{ data := [1, 0, 0, 0] }] [9]
    ProgramError.malformedInstruction rfl

/-- C10: the handler is deterministic and reads only the instruction bytes
and the first account's data: for identical instruction buffers and identical
first-account data, the result and the final first-account data agree for
every choice of program id and trailing accounts, and the trailing accounts
are returned unchanged. -/
theorem C10_first_account_only (pid1 pid2 : Nat) (d : List Nat)
    (rest1 rest2 : List AccountInfo) (ins : List Nat) :
    (process_instructions pid1 ({ data := d } :: rest1) ins).1 =
      (process_instructions pid2 ({ data := d } :: rest2) ins).1 ∧
    (process_instructions pid1 ({ data := d } :: rest1) ins).2.head?.map AccountInfo.data =
      (process_instructions pid2 ({ data := d } :: rest2) ins).2.head?.map AccountInfo.data ∧
    (process_instructions pid1 ({ data := d } :: rest1) ins).2.tail = rest1 ∧
    (process_instructions pid2 ({ data := d } :: rest2) ins).2.tail = rest2 := by
  rcases hins : Instructions.try_from_slice ins with e | i
  · simp [process_instructions, hins]
  rcases hst : Counter.try_from_slice d with e | c
  · simp [process_instructions, hins, hst]
  obtain ⟨b0, b1, b2, b3, hdEq, hcEq⟩ := Counter.decode_ok_shape d c hst
  subst hdEq
  rcases i with v | v <;>
    · simp only [process_instructions, hins, hst]
      exact ⟨rfl, rfl, rfl, rfl⟩
